import Mathlib

/-!
Verification of the numerical routines of the F1Data repository
(`functions.py` and `interface.py`) against its specification.

Lap times, reference paces and regression inputs are modelled as rationals
(the Python code computes with real-valued seconds; no floating-point
rounding is relevant to the stated properties).  A lap-time slot that can be
`NaN`/missing is modelled as `Option ℚ`, `none` standing for a missing value:
every comparison with `none` is false, and arithmetic on `none` yields
`none`, exactly as IEEE `NaN` behaves in the numpy/pandas expressions of the
source.  Fallible per-driver computations are modelled as `Except`-valued
functions.
-/

set_option maxHeartbeats 1000000

namespace F1Data

/-- Evaluation helper: `Int.toNat` of an integer numeral (the `no_index`
makes the rewrite applicable to the numerals produced by `norm_num`). -/
theorem toNat_int_ofNat (n : ℕ) :
    Int.toNat (no_index (OfNat.ofNat n)) = OfNat.ofNat n := rfl

/-- Arithmetic mean of a list of rationals, as `np.mean` / `.mean()` compute
it on the non-empty lists the callers guard for (the value on `[]` is never
used by the embedded callers; in ℚ it happens to be `0`). -/
def mean (xs : List ℚ) : ℚ := xs.sum / xs.length

/-- Ascending sort of the samples, as `np.percentile` performs internally.
Any correct sort produces the same list, so insertion sort is a faithful
model. -/
def sortLaps (xs : List ℚ) : List ℚ := xs.insertionSort (· ≤ ·)

/-- Linear interpolation at fractional rank `p` in an (already sorted)
sample `s`: with `k = ⌊p⌋`, the value `s[k] + (p − k)·(s[k+1] − s[k])`.
This is the `linear` interpolation rule of `np.percentile`. -/
def interp (s : List ℚ) (p : ℚ) : ℚ :=
  s.getD (⌊p⌋).toNat 0 +
    (p - ((⌊p⌋).toNat : ℚ)) *
      (s.getD ((⌊p⌋).toNat + 1) 0 - s.getD (⌊p⌋).toNat 0)

/-- `np.percentile(xs, q)` with the default linear interpolation:
interpolate at rank `q/100 · (n − 1)` in the sorted sample. -/
def percentile (xs : List ℚ) (q : ℚ) : ℚ :=
  interp (sortLaps xs) (q / 100 * ((xs.length : ℚ) - 1))

/-- The values retained by the IQR outlier filter of
`functions.py::plot_mean_lap_time` (lines 110–115):
`lap_times[(lap_times >= q1 - 1.5*iqr) & (lap_times <= q3 + 1.5*iqr)]`. -/
def iqrFilter (xs : List ℚ) : List ℚ :=
  xs.filter (fun x =>
    decide (percentile xs 25 - 3/2 * (percentile xs 75 - percentile xs 25) ≤ x) &&
    decide (x ≤ percentile xs 75 + 3/2 * (percentile xs 75 - percentile xs 25)))

/-- Body of the `len(lap_times) > 3` branch of
`functions.py::plot_mean_lap_time` (lines 110–116): mean of the IQR-filtered
values, falling back to the unfiltered mean when the filter retained
nothing. -/
def meanLapTimeFiltered (xs : List ℚ) : ℚ :=
  if 0 < (iqrFilter xs).length then mean (iqrFilter xs) else mean xs

/-- Per-driver mean lap time of `functions.py::plot_mean_lap_time`
(lines 107–118): IQR-filtered mean when more than 3 samples are available,
otherwise the plain mean, and `0` (the "no data" sentinel) on an empty
sample. -/
def meanLapTime (xs : List ℚ) : ℚ :=
  if 3 < xs.length then meanLapTimeFiltered xs
  else if 0 < xs.length then mean xs else 0

/-- Sample variance with `ddof = 1`, i.e. the square of the pandas `.std()`
used by `interface.py::plot_mean_lap_time` (line 418). -/
def varSample (xs : List ℚ) : ℚ :=
  (xs.map (fun x => (x - mean xs) * (x - mean xs))).sum / ((xs.length : ℚ) - 1)

/-- The values retained by the outlier filter of
`interface.py::plot_mean_lap_time` (line 419):
`lap_times[abs(lap_times - mean) <= 2 * std]`, stated over ℚ via the
equivalent squared comparison `(x − mean)² ≤ 4·var` (both sides of the
original comparison are non-negative). -/
def stdFilter (xs : List ℚ) : List ℚ :=
  xs.filter (fun x => decide ((x - mean xs) * (x - mean xs) ≤ 4 * varSample xs))

/-- Per-driver mean lap time of `interface.py::plot_mean_lap_time`
(lines 413–422): the 2-standard-deviation filter is applied only when more
than 3 laps are available, and the driver is skipped (`none`) when no laps
remain. -/
def meanLapTimeStd (xs : List ℚ) : Option ℚ :=
  if 0 < (if 3 < xs.length then stdFilter xs else xs).length
  then some (mean (if 3 < xs.length then stdFilter xs else xs))
  else none

/-! ### Cumulative delta-to-reference (`plot_race_history`) -/

/-- Comparison `x <= 0` of `functions.py::plot_race_history` (line 418) on a
possibly-missing lap time: false on a missing (`NaN`) value, exactly as the
IEEE comparison is. -/
def invalidLap (x : Option ℚ) : Bool :=
  match x with
  | some q => decide (q ≤ 0)
  | none => false

/-- Condition `lap_times.iloc[i] <= 0 or pd.isna(lap_times.iloc[i])` of
`interface.py::plot_race_history` (line 619): also true on a missing
value. -/
def invalidLapOrNa (x : Option ℚ) : Bool :=
  match x with
  | some q => decide (q ≤ 0)
  | none => true

/-- Average `(a + b) / 2` of two possibly-missing lap times: missing
(`NaN`) if either operand is. -/
def nanAvg (a b : Option ℚ) : Option ℚ :=
  match a, b with
  | some x, some y => some ((x + y) / 2)
  | _, _ => none

/-- One iteration of the correction loop: test the value at index `i` and,
if invalid, overwrite it with the average of its current neighbours. -/
def fixStep (bad : Option ℚ → Bool) (w : List (Option ℚ)) (i : ℕ) :
    List (Option ℚ) :=
  if bad (w.getD i none) then
    w.set i (nanAvg (w.getD (i - 1) none) (w.getD (i + 1) none))
  else w

/-- The in-place neighbour-averaging correction loop
`for i in range(1, len(lap_times) - 1): if <invalid>: lap_times[i] =
(lap_times[i-1] + lap_times[i+1]) / 2`, shared (up to the invalidity test
`bad`) by `functions.py::plot_race_history` (lines 417–419) and
`interface.py::plot_race_history` (lines 618–620).  The list is updated in
place, so later iterations see the values written by earlier ones. -/
def fixPass (bad : Option ℚ → Bool) (laps : List (Option ℚ)) :
    List (Option ℚ) :=
  (List.range' 1 (laps.length - 2)).foldl (fixStep bad) laps

/-- Correction pass of `functions.py::plot_race_history` (lines 417–419):
only non-positive interior values trigger the replacement. -/
def fixLapsF (laps : List (Option ℚ)) : List (Option ℚ) :=
  fixPass invalidLap laps

/-- Correction pass of `interface.py::plot_race_history` (lines 618–620):
non-positive or missing interior values trigger the replacement. -/
def fixLapsI (laps : List (Option ℚ)) : List (Option ℚ) :=
  fixPass invalidLapOrNa laps

/-- Running sum with accumulator, modelling `np.cumsum` / `.cumsum()`. -/
def cumsumFrom (acc : ℚ) : List ℚ → List ℚ
  | [] => []
  | x :: rest => (acc + x) :: cumsumFrom (acc + x) rest

/-- `np.cumsum(lap_times)` (functions.py line 427, interface.py line 623). -/
def cumsum (xs : List ℚ) : List ℚ := cumsumFrom 0 xs

/-- Delta trace of `functions.py::plot_race_history` (lines 426–433):
`theoretical_times = [reference * i for i in range(1, len+1)]` minus the
cumulative times, position by position. -/
def deltaTimes (ref : ℚ) (laps : List ℚ) : List ℚ :=
  List.zipWith (fun t s => t - s)
    ((List.range (cumsum laps).length).map (fun i : ℕ => ref * ((i : ℚ) + 1)))
    (cumsum laps)

/-- Delta trace of `interface.py::plot_race_history` (lines 622–630):
`reference_times = [reference * lap for lap in lap_numbers]` minus the
cumulative times, position by position. -/
def deltaTimesNum (ref : ℚ) (laps : List ℚ) (lapNumbers : List ℚ) : List ℚ :=
  List.zipWith (fun t s => t - s)
    (lapNumbers.map (fun ln => ref * ln))
    (cumsum laps)

/-! ### Degradation slope (`analyze_long_runs`) -/

/-- Modelled from the spec: the slope coefficient `results.params[1]` of the
external `statsmodels` ordinary-least-squares fit
`sm.OLS(lap_times, sm.add_constant(tyre_life))` called at
`functions.py::analyze_long_runs` (lines 1545–1548) — the library itself is
not part of this repository.  The slope of the least-squares line through
the points `(x i, y i)` in closed form (normal equations):
`(n·Σxy − Σx·Σy) / (n·Σx² − (Σx)²)`. -/
def olsSlope (xs ys : List ℚ) : ℚ :=
  ((xs.length : ℚ) * (List.zipWith (· * ·) xs ys).sum - xs.sum * ys.sum) /
    ((xs.length : ℚ) * (xs.map (fun x => x * x)).sum - xs.sum * xs.sum)

/-- Population covariance `cov(x, y) = mean(x·y) − mean(x)·mean(y)`,
the quantity named in the specification of the degradation slope. -/
def covQ (xs ys : List ℚ) : ℚ :=
  (List.zipWith (· * ·) xs ys).sum / xs.length - mean xs * mean ys

/-- Population variance `var(x) = mean(x²) − mean(x)²`, the quantity named
in the specification of the degradation slope. -/
def varQ (xs : List ℚ) : ℚ :=
  (xs.map (fun x => x * x)).sum / xs.length - mean xs * mean xs

/-- Per-stint degradation of `functions.py::analyze_long_runs`
(lines 1544–1556): an OLS slope when at least 3 points are available,
no fit otherwise. -/
def degradation (tyre_life lap_times : List ℚ) : Option ℚ :=
  if 3 ≤ lap_times.length then some (olsSlope tyre_life lap_times) else none

/-! ### Per-driver error-handling policy -/

/-- The per-driver loop pattern of the chart routines
(`functions.py::plot_pace_comparison` lines 35–51,
`functions.py::plot_mean_lap_time` lines 96–126,
`interface.py::plot_pace_comparison` lines 339–358):
each driver's computation `f` may fail (`Except`, modelling a raised
exception); the `try/except` body appends the result on success and skips
the driver on failure, then the loop continues with the next driver. -/
def processStep (f : String → Except String ℚ)
    (acc : List (String × ℚ)) (d : String) : List (String × ℚ) :=
  match f d with
  | .ok v => acc ++ [(d, v)]
  | .error _ => acc

def processDrivers (f : String → Except String ℚ) (drivers : List String) :
    List (String × ℚ) :=
  drivers.foldl (processStep f) []

/-! ### Facts about the sorted sample and the interpolated percentile -/

theorem sortLaps_sorted (xs : List ℚ) : (sortLaps xs).Sorted (· ≤ ·) :=
  List.sorted_insertionSort _ xs

theorem sortLaps_perm (xs : List ℚ) : List.Perm (sortLaps xs) xs :=
  List.perm_insertionSort _ xs

theorem sortLaps_length (xs : List ℚ) : (sortLaps xs).length = xs.length :=
  (sortLaps_perm xs).length_eq

theorem sorted_getD_mono {s : List ℚ} (hs : s.Sorted (· ≤ ·)) {i j : ℕ}
    (hij : i ≤ j) (hj : j < s.length) : s.getD i 0 ≤ s.getD j 0 := by
  have hi : i < s.length := lt_of_le_of_lt hij hj
  rw [List.getD_eq_getElem _ _ hi, List.getD_eq_getElem _ _ hj]
  exact hs.rel_get_of_le (Fin.mk_le_mk.mpr hij)

theorem getD_mem {s : List ℚ} {j : ℕ} (hj : j < s.length) :
    s.getD j 0 ∈ s := by
  rw [List.getD_eq_getElem _ _ hj]
  exact List.getElem_mem hj

theorem toNat_floor_cast {p : ℚ} (hp : 0 ≤ p) :
    (((⌊p⌋).toNat : ℕ) : ℚ) = ((⌊p⌋ : ℤ) : ℚ) := by
  have h0 : (0 : ℤ) ≤ ⌊p⌋ := Int.floor_nonneg.mpr hp
  exact_mod_cast congrArg (fun z : ℤ => (z : ℚ)) (Int.toNat_of_nonneg h0)

/-- The interpolated value at rank `p` is at most any sample whose index is
at least `p`. -/
theorem interp_le_getD {s : List ℚ} (hs : s.Sorted (· ≤ ·)) {p : ℚ}
    (hp : 0 ≤ p) {j : ℕ} (hj : j < s.length) (hpj : p ≤ (j : ℚ)) :
    interp s p ≤ s.getD j 0 := by
  unfold interp
  set k := (⌊p⌋).toNat with hk
  have hcast : ((k : ℕ) : ℚ) = ((⌊p⌋ : ℤ) : ℚ) := toNat_floor_cast hp
  have hkp : (k : ℚ) ≤ p := by rw [hcast]; exact Int.floor_le p
  have hf0 : 0 ≤ p - (k : ℚ) := by linarith
  have hf1 : p - (k : ℚ) < 1 := by
    have h1 : p < ⌊p⌋ + 1 := Int.lt_floor_add_one p
    have : p < (k : ℚ) + 1 := by rw [hcast]; exact_mod_cast h1
    linarith
  have hkj : k ≤ j := by exact_mod_cast le_trans hkp hpj
  rcases Nat.lt_or_ge k j with hlt | hge
  · have hk1 : k + 1 ≤ j := hlt
    have hk1n : k + 1 < s.length := lt_of_le_of_lt hk1 hj
    have h1 : s.getD k 0 ≤ s.getD (k + 1) 0 :=
      sorted_getD_mono hs (Nat.le_succ k) hk1n
    have h2 : s.getD (k + 1) 0 ≤ s.getD j 0 := sorted_getD_mono hs hk1 hj
    have hd : 0 ≤ s.getD (k + 1) 0 - s.getD k 0 := by linarith
    have hmul : (p - (k : ℚ)) * (s.getD (k + 1) 0 - s.getD k 0) ≤
        1 * (s.getD (k + 1) 0 - s.getD k 0) :=
      mul_le_mul_of_nonneg_right (le_of_lt hf1) hd
    linarith
  · have hkj2 : k = j := le_antisymm hkj hge
    subst hkj2
    have hpk : p = (k : ℚ) := le_antisymm hpj hkp
    rw [hpk]
    simp only [sub_self, zero_mul, add_zero, le_refl]

/-- Any sample whose index is at most `p` is at most the interpolated value
at rank `p` (provided `p` does not exceed the last index). -/
theorem getD_le_interp {s : List ℚ} (hs : s.Sorted (· ≤ ·)) {p : ℚ}
    (hpn : p ≤ (s.length : ℚ) - 1) {j : ℕ} (hj : j < s.length)
    (hjp : (j : ℚ) ≤ p) : s.getD j 0 ≤ interp s p := by
  unfold interp
  set k := (⌊p⌋).toNat with hk
  have hp : 0 ≤ p := le_trans (by positivity) hjp
  have hcast : ((k : ℕ) : ℚ) = ((⌊p⌋ : ℤ) : ℚ) := toNat_floor_cast hp
  have hkp : (k : ℚ) ≤ p := by rw [hcast]; exact Int.floor_le p
  have hjk : j ≤ k := by
    have h0 : (0 : ℤ) ≤ ⌊p⌋ := Int.floor_nonneg.mpr hp
    have hjf : (j : ℤ) ≤ ⌊p⌋ := Int.le_floor.mpr (by exact_mod_cast hjp)
    omega
  have hkn : k < s.length := by
    have h1 : ((k : ℕ) : ℚ) ≤ (s.length : ℚ) - 1 := le_trans hkp hpn
    have h2 : ((k + 1 : ℕ) : ℚ) ≤ (s.length : ℚ) := by push_cast; linarith
    exact_mod_cast h2
  have hjk' : s.getD j 0 ≤ s.getD k 0 := sorted_getD_mono hs hjk hkn
  rcases eq_or_lt_of_le hkp with hfe | hflt
  · rw [← hfe]
    simp only [sub_self, zero_mul, add_zero]
    exact hjk'
  · have hk1n : k + 1 < s.length := by
      have h1 : ((k : ℕ) : ℚ) < (s.length : ℚ) - 1 := lt_of_lt_of_le hflt hpn
      have h2 : ((k + 1 : ℕ) : ℚ) < (s.length : ℚ) := by push_cast; linarith
      exact_mod_cast h2
    have h1 : s.getD k 0 ≤ s.getD (k + 1) 0 :=
      sorted_getD_mono hs (Nat.le_succ k) hk1n
    have hmul : 0 ≤ (p - (k : ℚ)) * (s.getD (k + 1) 0 - s.getD k 0) :=
      mul_nonneg (by linarith) (by linarith)
    linarith

/-- In a sorted sample of length other than 2 there is a sample value lying
between the interpolated 25th and 75th percentile ranks. -/
theorem interp_window {s : List ℚ} (hs : s.Sorted (· ≤ ·))
    (hne : s ≠ []) (h2 : s.length ≠ 2) :
    ∃ x ∈ s, interp s (25 / 100 * ((s.length : ℚ) - 1)) ≤ x ∧
      x ≤ interp s (75 / 100 * ((s.length : ℚ) - 1)) := by
  have hn1 : 0 < s.length := List.length_pos.mpr hne
  have hnq : (1 : ℚ) ≤ (s.length : ℚ) := by exact_mod_cast hn1
  set p1 : ℚ := 25 / 100 * ((s.length : ℚ) - 1) with hp1
  set p3 : ℚ := 75 / 100 * ((s.length : ℚ) - 1) with hp3
  have hp1nn : 0 ≤ p1 := by rw [hp1]; nlinarith
  have hp3nn : 0 ≤ p3 := by rw [hp3]; nlinarith
  set j : ℕ := (⌊p3⌋).toNat with hjdef
  have hcast : ((j : ℕ) : ℚ) = ((⌊p3⌋ : ℤ) : ℚ) := toNat_floor_cast hp3nn
  have hjp3 : (j : ℚ) ≤ p3 := by rw [hcast]; exact Int.floor_le p3
  have hp3n : p3 ≤ (s.length : ℚ) - 1 := by rw [hp3]; nlinarith
  have hjn : j < s.length := by
    have h : ((j + 1 : ℕ) : ℚ) ≤ (s.length : ℚ) := by push_cast; linarith
    have h' : j + 1 ≤ s.length := by exact_mod_cast h
    omega
  have hp1j : p1 ≤ (j : ℚ) := by
    rcases Nat.lt_or_ge s.length 2 with hsmall | hbig
    · have hone : s.length = 1 := by omega
      rw [hp1, hone]
      norm_num
    · have hn3 : 3 ≤ s.length := by omega
      have hn3q : (3 : ℚ) ≤ (s.length : ℚ) := by exact_mod_cast hn3
      have hfl : p3 - 1 < (j : ℚ) := by
        rw [hcast]
        have h := Int.lt_floor_add_one p3
        push_cast
        linarith
      have hgap : p1 + 1 ≤ p3 := by rw [hp1, hp3]; linarith
      linarith
  exact ⟨s.getD j 0, getD_mem hjn,
    interp_le_getD hs hp1nn hjn hp1j, getD_le_interp hs hp3n hjn hjp3⟩

/-- Some sample always lies inside the IQR acceptance window
`[q1 − 1.5·iqr, q3 + 1.5·iqr]` used by `plot_mean_lap_time`. -/
theorem exists_mem_iqr_bounds (xs : List ℚ) (hne : xs ≠ []) :
    ∃ x ∈ xs,
      percentile xs 25 - 3/2 * (percentile xs 75 - percentile xs 25) ≤ x ∧
      x ≤ percentile xs 75 + 3/2 * (percentile xs 75 - percentile xs 25) := by
  have hs := sortLaps_sorted xs
  have hlen := sortLaps_length xs
  have hsne : sortLaps xs ≠ [] := by
    intro h
    rw [h] at hlen
    exact hne (List.length_eq_zero.mp hlen.symm)
  by_cases h2 : xs.length = 2
  · obtain ⟨a, b, hab⟩ := List.length_eq_two.mp (hlen.trans h2)
    have hord : a ≤ b := by
      rw [hab] at hs
      exact (List.sorted_cons.mp hs).1 b (by simp)
    have hq1 : percentile xs 25 = a + 1/4 * (b - a) := by
      unfold percentile
      rw [hab, h2]
      norm_num [interp]
    have hq3 : percentile xs 75 = a + 3/4 * (b - a) := by
      unfold percentile
      rw [hab, h2]
      norm_num [interp]
    refine ⟨a, ?_, ?_, ?_⟩
    · exact (sortLaps_perm xs).mem_iff.mp (by rw [hab]; exact List.mem_cons_self a _)
    · rw [hq1, hq3]; linarith
    · rw [hq1, hq3]; linarith
  · obtain ⟨x, hxmem, hx1, hx3⟩ :=
      interp_window hs hsne (by rw [hlen]; exact h2)
    have h1 : percentile xs 25 ≤ x := by
      unfold percentile
      rw [← hlen]
      exact hx1
    have h3 : x ≤ percentile xs 75 := by
      unfold percentile
      rw [← hlen]
      exact hx3
    exact ⟨x, (sortLaps_perm xs).mem_iff.mp hxmem, by linarith, by linarith⟩

/-- Membership in the IQR filter, unfolded. -/
theorem mem_iqrFilter_iff {xs : List ℚ} {x : ℚ} :
    x ∈ iqrFilter xs ↔ x ∈ xs ∧
      percentile xs 25 - 3/2 * (percentile xs 75 - percentile xs 25) ≤ x ∧
      x ≤ percentile xs 75 + 3/2 * (percentile xs 75 - percentile xs 25) := by
  unfold iqrFilter
  rw [List.mem_filter]
  simp only [Bool.and_eq_true, decide_eq_true_eq]

/-- The IQR filter of `plot_mean_lap_time` never discards every sample. -/
theorem iqrFilter_ne_nil {xs : List ℚ} (hne : xs ≠ []) :
    iqrFilter xs ≠ [] := by
  obtain ⟨x, hx, h1, h3⟩ := exists_mem_iqr_bounds xs hne
  have hmem : x ∈ iqrFilter xs := mem_iqrFilter_iff.mpr ⟨hx, h1, h3⟩
  intro h
  rw [h] at hmem
  exact List.not_mem_nil x hmem

/-- The mean of a non-empty list whose members all lie in `[a, b]` lies in
`[a, b]`. -/
theorem mean_bounds {l : List ℚ} (hne : l ≠ []) {a b : ℚ}
    (ha : ∀ x ∈ l, a ≤ x) (hb : ∀ x ∈ l, x ≤ b) :
    a ≤ mean l ∧ mean l ≤ b := by
  have hlen : 0 < l.length := List.length_pos.mpr hne
  have hlenq : 0 < (l.length : ℚ) := by exact_mod_cast hlen
  have hlow : (l.length : ℚ) * a ≤ l.sum := by
    have h := List.card_nsmul_le_sum l a ha
    rwa [nsmul_eq_mul] at h
  have hhigh : l.sum ≤ (l.length : ℚ) * b := by
    have h := List.sum_le_card_nsmul l b hb
    rwa [nsmul_eq_mul] at h
  unfold mean
  constructor
  · rw [le_div_iff hlenq]
    linarith
  · rw [div_le_iff hlenq]
    linarith

/-- With at least 4 samples, `plot_mean_lap_time` returns the mean of the
IQR-filtered values (the empty-filter fallback is unreachable). -/
theorem meanLapTime_eq_filtered_mean {xs : List ℚ} (h4 : 4 ≤ xs.length) :
    meanLapTime xs = mean (iqrFilter xs) := by
  have hne : xs ≠ [] := by
    intro h
    rw [h] at h4
    simp at h4
  have hfne : iqrFilter xs ≠ [] := iqrFilter_ne_nil hne
  unfold meanLapTime meanLapTimeFiltered
  rw [if_pos (by omega : 3 < xs.length),
    if_pos (List.length_pos.mpr hfne)]

/-- The 2-standard-deviation filter of `interface.py::plot_mean_lap_time`
retains exactly the values within two sample standard deviations of the
mean (the ℚ-level squared comparison agrees with the real-valued absolute
one). -/
theorem stdFilter_mem_iff {xs : List ℚ} (h4 : 4 ≤ xs.length) {x : ℚ} :
    x ∈ stdFilter xs ↔ x ∈ xs ∧
      |((x : ℝ)) - ((mean xs : ℝ))| ≤ 2 * Real.sqrt ((varSample xs : ℝ)) := by
  have hvq : 0 ≤ varSample xs := by
    unfold varSample
    apply div_nonneg
    · apply List.sum_nonneg
      intro y hy
      obtain ⟨z, hz, rfl⟩ := List.mem_map.mp hy
      exact mul_self_nonneg _
    · have h : (4 : ℚ) ≤ (xs.length : ℚ) := by exact_mod_cast h4
      linarith
  have hvr : (0 : ℝ) ≤ ((varSample xs : ℝ)) := by exact_mod_cast hvq
  have habs : |2 * Real.sqrt ((varSample xs : ℝ))| =
      2 * Real.sqrt ((varSample xs : ℝ)) := abs_of_nonneg (by positivity)
  have hsq : (2 * Real.sqrt ((varSample xs : ℝ))) *
      (2 * Real.sqrt ((varSample xs : ℝ))) = 4 * ((varSample xs : ℝ)) := by
    have h := Real.mul_self_sqrt hvr
    nlinarith [h]
  unfold stdFilter
  rw [List.mem_filter]
  simp only [decide_eq_true_eq]
  apply and_congr_right
  intro _
  rw [← habs, abs_le_iff_mul_self_le, hsq]
  rw [show ((x : ℝ) - ((mean xs : ℝ))) * ((x : ℝ) - ((mean xs : ℝ))) =
      (((x - mean xs) * (x - mean xs) : ℚ) : ℝ) by push_cast; ring]
  rw [show (4 : ℝ) * ((varSample xs : ℝ)) = ((4 * varSample xs : ℚ) : ℝ) by
    push_cast; ring]
  exact Rat.cast_le.symm

/-! ### Claim theorems: outlier-filtered mean lap time -/

/-- C1 (amended): with at least 4 samples,
`functions.py::plot_mean_lap_time` retains exactly the values inside the
IQR window `[Q1 − 1.5·IQR, Q3 + 1.5·IQR]` (linear-interpolated percentiles
— this is the definition of `iqrFilter`) and returns the arithmetic mean of
the retained values; with fewer than 4 samples it returns the mean of all
values.  `interface.py::plot_mean_lap_time`, however, does not use the IQR
window: with more than 3 samples it retains exactly the values within two
sample standard deviations of the mean and returns their arithmetic
mean. -/
theorem C1_mean_lap_time (xs : List ℚ) :
    (4 ≤ xs.length → meanLapTime xs = mean (iqrFilter xs)) ∧
    (xs ≠ [] → xs.length < 4 → meanLapTime xs = mean xs) ∧
    (4 ≤ xs.length → stdFilter xs ≠ [] →
      meanLapTimeStd xs = some (mean (stdFilter xs))) ∧
    (4 ≤ xs.length → ∀ x : ℚ, x ∈ stdFilter xs ↔ x ∈ xs ∧
      |((x : ℝ)) - ((mean xs : ℝ))| ≤ 2 * Real.sqrt ((varSample xs : ℝ))) := by
  refine ⟨fun h4 => meanLapTime_eq_filtered_mean h4, fun hne hlt => ?_,
    fun h4 hne => ?_, fun h4 x => stdFilter_mem_iff h4⟩
  · unfold meanLapTime
    rw [if_neg (by omega), if_pos (List.length_pos.mpr hne)]
  · unfold meanLapTimeStd
    simp only [if_pos (show 3 < xs.length by omega)]
    rw [if_pos (List.length_pos.mpr hne)]

/-- Witness for C1 at concrete inputs. -/
theorem C1_mean_lap_time_witness :
    meanLapTime [1, 2, 3, 100] = mean (iqrFilter [1, 2, 3, 100]) ∧
    meanLapTime [90, 91] = mean [90, 91] ∧
    meanLapTimeStd [1, 2, 3, 100] = some (mean (stdFilter [1, 2, 3, 100])) ∧
    ((1 : ℚ) ∈ stdFilter [1, 2, 3, 100] ↔
      (1 : ℚ) ∈ ([1, 2, 3, 100] : List ℚ) ∧
      |(((1 : ℚ) : ℝ)) - ((mean [1, 2, 3, 100] : ℝ))| ≤
        2 * Real.sqrt ((varSample [1, 2, 3, 100] : ℝ))) :=
  ⟨(C1_mean_lap_time [1, 2, 3, 100]).1 (by decide),
   (C1_mean_lap_time [90, 91]).2.1 (by simp) (by decide),
   (C1_mean_lap_time [1, 2, 3, 100]).2.2.1 (by decide)
     (by norm_num [stdFilter, varSample, mean, List.filter_cons]; simp),
   (C1_mean_lap_time [1, 2, 3, 100]).2.2.2 (by decide) 1⟩

/-- C1 counterexample: on `[1, 2, 3, 100]` interface.py's mean-lap-time
routine returns `53/2`, not the arithmetic mean `2` of the values retained
by the IQR window, so the claim as stated is false of that routine. -/
theorem C1_counterexample :
    meanLapTimeStd [1, 2, 3, 100] = some (53/2) ∧
    mean (iqrFilter [1, 2, 3, 100]) = 2 ∧
    meanLapTimeStd [1, 2, 3, 100] ≠ some (mean (iqrFilter [1, 2, 3, 100])) := by
  have h1 : meanLapTimeStd [1, 2, 3, 100] = some (53/2) := by
    norm_num [meanLapTimeStd, stdFilter, varSample, mean, List.filter_cons]
  have h2 : mean (iqrFilter [1, 2, 3, 100]) = 2 := by
    norm_num [mean, iqrFilter, percentile, interp, sortLaps,
      List.orderedInsert, List.filter_cons, toNat_int_ofNat]
  refine ⟨h1, h2, ?_⟩
  rw [h1, h2]
  norm_num

/-- C4 (confirmed): an empty input yields the "no data" sentinel `0` (the
embedding is a total function, so no error is possible), and whenever the
IQR filter retains nothing the routine falls back to the unfiltered
mean. -/
theorem C4_empty_and_fallback (xs : List ℚ) (h : iqrFilter xs = []) :
    meanLapTime [] = 0 ∧ meanLapTimeFiltered xs = mean xs := by
  constructor
  · rfl
  · unfold meanLapTimeFiltered
    rw [h]
    simp

/-- Witness for C4. -/
theorem C4_witness : meanLapTime [] = 0 ∧ meanLapTimeFiltered [] = mean [] :=
  C4_empty_and_fallback [] rfl

/-- C6 (confirmed): with at least 4 samples the filtered mean returned by
`plot_mean_lap_time` lies inside the IQR window computed from the input
sequence. -/
theorem C6_mean_in_bounds (xs : List ℚ) (h4 : 4 ≤ xs.length) :
    percentile xs 25 - 3/2 * (percentile xs 75 - percentile xs 25) ≤
      meanLapTime xs ∧
    meanLapTime xs ≤
      percentile xs 75 + 3/2 * (percentile xs 75 - percentile xs 25) := by
  have hne : xs ≠ [] := by
    intro h
    rw [h] at h4
    simp at h4
  have hfne := iqrFilter_ne_nil hne
  rw [meanLapTime_eq_filtered_mean h4]
  exact mean_bounds hfne (fun x hx => (mem_iqrFilter_iff.mp hx).2.1)
    (fun x hx => (mem_iqrFilter_iff.mp hx).2.2)

/-- Witness for C6. -/
theorem C6_witness :
    percentile [1, 2, 3, 100] 25 -
        3/2 * (percentile [1, 2, 3, 100] 75 - percentile [1, 2, 3, 100] 25) ≤
      meanLapTime [1, 2, 3, 100] ∧
    meanLapTime [1, 2, 3, 100] ≤
      percentile [1, 2, 3, 100] 75 +
        3/2 * (percentile [1, 2, 3, 100] 75 - percentile [1, 2, 3, 100] 25) :=
  C6_mean_in_bounds [1, 2, 3, 100] (by decide)

/-- C9 (confirmed): for every non-empty sample the IQR filter retains at
least one value (any sample between the interpolated percentiles is always
retained), so the fallback branch returning the unfiltered mean is
unreachable and the routine returns the filtered mean whenever the filter
runs. -/
theorem C9_filter_nonempty (xs : List ℚ) (hne : xs ≠ []) :
    iqrFilter xs ≠ [] ∧
    (∀ x ∈ xs, percentile xs 25 ≤ x → x ≤ percentile xs 75 →
      x ∈ iqrFilter xs) ∧
    (3 < xs.length → meanLapTime xs = mean (iqrFilter xs)) :=
  ⟨iqrFilter_ne_nil hne,
   fun _ hx h1 h3 => mem_iqrFilter_iff.mpr ⟨hx, by linarith, by linarith⟩,
   fun h => meanLapTime_eq_filtered_mean (by omega)⟩

/-- Witness for C9. -/
theorem C9_witness :
    iqrFilter [5] ≠ [] ∧
    meanLapTime [1, 2, 3, 100] = mean (iqrFilter [1, 2, 3, 100]) :=
  ⟨(C9_filter_nonempty [5] (by simp)).1,
   (C9_filter_nonempty [1, 2, 3, 100] (by simp)).2.2 (by decide)⟩

/-! ### Claim theorems: cumulative delta-to-reference -/

theorem cumsumFrom_length (xs : List ℚ) :
    ∀ acc : ℚ, (cumsumFrom acc xs).length = xs.length := by
  induction xs with
  | nil => intro acc; rfl
  | cons x rest ih =>
    intro acc
    simp [cumsumFrom, ih]

theorem cumsum_length (xs : List ℚ) : (cumsum xs).length = xs.length :=
  cumsumFrom_length xs 0

theorem cumsumFrom_getD (xs : List ℚ) :
    ∀ (acc : ℚ) (i : ℕ), i < xs.length →
      (cumsumFrom acc xs).getD i 0 = acc + (xs.take (i + 1)).sum := by
  induction xs with
  | nil =>
    intro acc i h
    simp at h
  | cons x rest ih =>
    intro acc i h
    cases i with
    | zero => simp [cumsumFrom]
    | succ j =>
      simp only [cumsumFrom, List.getD_cons_succ, List.take_succ_cons,
        List.sum_cons]
      rw [ih (acc + x) j (by simpa using h)]
      ring

theorem cumsum_getD {xs : List ℚ} {i : ℕ} (h : i < xs.length) :
    (cumsum xs).getD i 0 = (xs.take (i + 1)).sum := by
  unfold cumsum
  rw [cumsumFrom_getD xs 0 i h, zero_add]

/-- The delta trace of `plot_race_history`, element by element. -/
theorem deltaTimes_getD (ref : ℚ) (laps : List ℚ) (i : ℕ)
    (h : i < laps.length) :
    (deltaTimes ref laps).getD i 0 =
      ref * ((i : ℚ) + 1) - (laps.take (i + 1)).sum := by
  unfold deltaTimes
  have hlen : (cumsum laps).length = laps.length := cumsum_length laps
  have hi1 : i < (cumsum laps).length := by rw [hlen]; exact h
  have hzlen : (List.zipWith (fun t s => t - s)
      ((List.range (cumsum laps).length).map (fun k : ℕ => ref * ((k : ℚ) + 1)))
      (cumsum laps)).length = (cumsum laps).length := by
    rw [List.length_zipWith, List.length_map, List.length_range,
      Nat.min_self]
  rw [List.getD_eq_getElem _ _ (by rw [hzlen]; exact hi1)]
  rw [List.getElem_zipWith, List.getElem_map, List.getElem_range]
  have hc : (cumsum laps)[i] = (laps.take (i + 1)).sum := by
    rw [← List.getD_eq_getElem _ 0 hi1]
    exact cumsum_getD h
  rw [hc]

/-- C3 (confirmed): the delta at 1-based index `i` is
`reference_pace · i − cumulative_sum(laps[1..i])`, both for the
positional variant of `functions.py::plot_race_history` and for the
lap-number variant of `interface.py::plot_race_history` when the lap
numbers are the usual contiguous `1..n`. -/
theorem C3_delta (ref : ℚ) (laps nums : List ℚ) (i : ℕ)
    (h1 : 1 ≤ i) (h2 : i ≤ laps.length)
    (hn : nums = (List.range laps.length).map (fun k : ℕ => ((k : ℚ) + 1))) :
    (deltaTimes ref laps).getD (i - 1) 0 =
      ref * (i : ℚ) - (laps.take i).sum ∧
    (deltaTimesNum ref laps nums).getD (i - 1) 0 =
      ref * (i : ℚ) - (laps.take i).sum := by
  have heq : deltaTimesNum ref laps nums = deltaTimes ref laps := by
    unfold deltaTimesNum deltaTimes
    rw [hn, cumsum_length laps, List.map_map]
    rfl
  have hi : i - 1 < laps.length := by omega
  have hmain : (deltaTimes ref laps).getD (i - 1) 0 =
      ref * (i : ℚ) - (laps.take i).sum := by
    rw [deltaTimes_getD ref laps (i - 1) hi]
    have hsub : i - 1 + 1 = i := by omega
    rw [hsub]
    have hcast : ((i - 1 : ℕ) : ℚ) + 1 = (i : ℚ) := by
      have : ((i - 1 : ℕ) : ℚ) = (i : ℚ) - 1 := by
        push_cast [h1]
        ring
      rw [this]
      ring
    rw [hcast]
  exact ⟨hmain, by rw [heq]; exact hmain⟩

/-- Witness for C3. -/
theorem C3_witness :
    (deltaTimes 2 [1, 3]).getD 1 0 = 0 ∧
    (deltaTimesNum 2 [1, 3] [1, 2]).getD 1 0 = 0 := by
  have h := C3_delta 2 [1, 3] [1, 2] 2 (by norm_num) (by norm_num)
    (by norm_num [List.range_succ])
  have ht : (([1, 3] : List ℚ).take 2).sum = 4 := by
    norm_num [List.take_succ_cons, List.sum_cons]
  constructor
  · rw [h.1, ht]
    norm_num
  · rw [h.2, ht]
    norm_num

/-! ### Claim theorems: neighbour-averaging correction pass -/

theorem getD_set_ne (l : List (Option ℚ)) {i j : ℕ} (h : i ≠ j)
    (a d : Option ℚ) : (l.set i a).getD j d = l.getD j d := by
  rw [List.getD_eq_getD_get?, List.getD_eq_getD_get?,
    List.get?_eq_getElem?, List.get?_eq_getElem?, List.getElem?_set_ne h]

theorem getD_set_self (l : List (Option ℚ)) {i : ℕ} (h : i < l.length)
    (a d : Option ℚ) : (l.set i a).getD i d = a := by
  rw [List.getD_eq_getD_get?, List.get?_eq_getElem?,
    List.getElem?_set_self h]
  rfl

theorem foldl_fixStep_length (bad : Option ℚ → Bool) :
    ∀ (idxs : List ℕ) (w : List (Option ℚ)),
      (idxs.foldl (fixStep bad) w).length = w.length := by
  intro idxs
  induction idxs with
  | nil => intro w; rfl
  | cons i rest ih =>
    intro w
    rw [List.foldl_cons, ih]
    unfold fixStep
    split
    · exact List.length_set w i _
    · rfl

/-- Indices not touched by any iteration keep their value. -/
theorem foldl_fixStep_frame (bad : Option ℚ → Bool) :
    ∀ (idxs : List ℕ) (w : List (Option ℚ)) {j : ℕ},
      (∀ i ∈ idxs, i ≠ j) →
      (idxs.foldl (fixStep bad) w).getD j none = w.getD j none := by
  intro idxs
  induction idxs with
  | nil => intro w j h; rfl
  | cons i rest ih =>
    intro w j h
    rw [List.foldl_cons,
      ih _ (fun k hk => h k (List.mem_cons_of_mem i hk))]
    unfold fixStep
    split
    · exact getD_set_ne w (h i (List.mem_cons_self i rest)) _ none
    · rfl

/-- The value of the pass at an interior index `j`: the original value if
valid, otherwise the average of the final value at `j − 1` (already
corrected by the earlier iterations) and the original value at `j + 1`. -/
theorem fixPass_getD_interior (bad : Option ℚ → Bool)
    (laps : List (Option ℚ)) {j : ℕ} (h1 : 1 ≤ j)
    (h2 : j + 1 < laps.length) :
    (fixPass bad laps).getD j none =
      if bad (laps.getD j none) then
        nanAvg ((fixPass bad laps).getD (j - 1) none)
          (laps.getD (j + 1) none)
      else laps.getD j none := by
  have hsplit : List.range' 1 (laps.length - 2) =
      List.range' 1 (j - 1) ++
        j :: List.range' (j + 1) (laps.length - 2 - j) := by
    have e1 : (laps.length - 1 - j) + (j - 1) = laps.length - 2 := by omega
    have e2 : laps.length - 1 - j = (laps.length - 2 - j) + 1 := by omega
    have e3 : 1 + (j - 1) = j := by omega
    calc List.range' 1 (laps.length - 2)
        = List.range' 1 ((laps.length - 1 - j) + (j - 1)) := by rw [e1]
      _ = List.range' 1 (j - 1) ++
            List.range' (1 + (j - 1)) (laps.length - 1 - j) :=
          (List.range'_append_1 1 (j - 1) (laps.length - 1 - j)).symm
      _ = List.range' 1 (j - 1) ++
            List.range' j ((laps.length - 2 - j) + 1) := by rw [e3, e2]
      _ = List.range' 1 (j - 1) ++
            j :: List.range' (j + 1) (laps.length - 2 - j) := by
          rw [List.range'_succ]
  unfold fixPass
  rw [hsplit, List.foldl_append, List.foldl_cons]
  set W := (List.range' 1 (j - 1)).foldl (fixStep bad) laps with hWdef
  have hmemA : ∀ i ∈ List.range' 1 (j - 1), i ≠ j := by
    intro i hi
    have := List.mem_range'_1.mp hi
    omega
  have hmemA1 : ∀ i ∈ List.range' 1 (j - 1), i ≠ j + 1 := by
    intro i hi
    have := List.mem_range'_1.mp hi
    omega
  have hmemB : ∀ i ∈ List.range' (j + 1) (laps.length - 2 - j), i ≠ j := by
    intro i hi
    have := List.mem_range'_1.mp hi
    omega
  have hmemB1 : ∀ i ∈ List.range' (j + 1) (laps.length - 2 - j),
      i ≠ j - 1 := by
    intro i hi
    have := List.mem_range'_1.mp hi
    omega
  have hWj : W.getD j none = laps.getD j none :=
    foldl_fixStep_frame bad _ laps hmemA
  have hWj1 : W.getD (j + 1) none = laps.getD (j + 1) none :=
    foldl_fixStep_frame bad _ laps hmemA1
  have hWlen : W.length = laps.length := foldl_fixStep_length bad _ laps
  have hfj : ((List.range' (j + 1) (laps.length - 2 - j)).foldl
      (fixStep bad) (fixStep bad W j)).getD j none =
      (fixStep bad W j).getD j none :=
    foldl_fixStep_frame bad _ _ hmemB
  have hfj1 : ((List.range' (j + 1) (laps.length - 2 - j)).foldl
      (fixStep bad) (fixStep bad W j)).getD (j - 1) none =
      W.getD (j - 1) none := by
    rw [foldl_fixStep_frame bad _ _ hmemB1]
    unfold fixStep
    split
    · exact getD_set_ne W (by omega) _ none
    · rfl
  rw [hfj, hfj1]
  unfold fixStep
  rw [hWj, hWj1]
  by_cases hb : bad (laps.getD j none) = true
  · rw [if_pos hb, if_pos hb]
    exact getD_set_self W (by omega) _ none
  · rw [if_neg hb, if_neg hb]
    exact hWj

/-- C5 (confirmed): neither correction pass modifies the first or the last
element of the lap sequence (and the length is preserved), whatever the
values are — including when they are non-positive or missing. -/
theorem C5_endpoints_preserved (laps : List (Option ℚ)) :
    (fixLapsF laps).length = laps.length ∧
    (fixLapsF laps).getD 0 none = laps.getD 0 none ∧
    (fixLapsF laps).getD (laps.length - 1) none =
      laps.getD (laps.length - 1) none ∧
    (fixLapsI laps).length = laps.length ∧
    (fixLapsI laps).getD 0 none = laps.getD 0 none ∧
    (fixLapsI laps).getD (laps.length - 1) none =
      laps.getD (laps.length - 1) none := by
  have h0 : ∀ i ∈ List.range' 1 (laps.length - 2), i ≠ 0 := by
    intro i hi
    have := List.mem_range'_1.mp hi
    omega
  have hl : ∀ i ∈ List.range' 1 (laps.length - 2),
      i ≠ laps.length - 1 := by
    intro i hi
    have := List.mem_range'_1.mp hi
    omega
  exact ⟨foldl_fixStep_length _ _ laps,
    foldl_fixStep_frame _ _ laps h0,
    foldl_fixStep_frame _ _ laps hl,
    foldl_fixStep_length _ _ laps,
    foldl_fixStep_frame _ _ laps h0,
    foldl_fixStep_frame _ _ laps hl⟩

/-- C2 (amended): in `interface.py`'s pass every interior lap that is
non-positive or missing is replaced — in a single left-to-right pass, so
the left neighbour is the already-corrected value and the right neighbour
the original one, and the average is itself missing when a neighbour is
missing; `functions.py`'s pass replaces only non-positive interior laps
and leaves missing interior laps unchanged.  For `[90, −1, 92]` the value
at index 1 becomes `91` in both passes. -/
theorem C2_neighbor_average (laps : List (Option ℚ)) (j : ℕ)
    (h1 : 1 ≤ j) (h2 : j + 1 < laps.length) :
    ((fixLapsI laps).getD j none =
      if invalidLapOrNa (laps.getD j none) then
        nanAvg ((fixLapsI laps).getD (j - 1) none)
          (laps.getD (j + 1) none)
      else laps.getD j none) ∧
    ((fixLapsF laps).getD j none =
      if invalidLap (laps.getD j none) then
        nanAvg ((fixLapsF laps).getD (j - 1) none)
          (laps.getD (j + 1) none)
      else laps.getD j none) ∧
    (laps.getD j none = none → (fixLapsF laps).getD j none = none) ∧
    fixLapsF [some 90, some (-1), some 92] = [some 90, some 91, some 92] ∧
    fixLapsI [some 90, some (-1), some 92] = [some 90, some 91, some 92] := by
  refine ⟨fixPass_getD_interior invalidLapOrNa laps h1 h2,
    fixPass_getD_interior invalidLap laps h1 h2, ?_, ?_, ?_⟩
  · intro hnone
    have h := fixPass_getD_interior invalidLap laps h1 h2
    rw [hnone] at h
    simpa [invalidLap] using h
  · norm_num [fixLapsF, fixPass, fixStep, invalidLap, nanAvg, List.range']
  · norm_num [fixLapsI, fixPass, fixStep, invalidLapOrNa, nanAvg,
      List.range']

/-- Witness for C2. -/
theorem C2_witness :
    fixLapsF [some 90, some (-1), some 92] = [some 90, some 91, some 92] ∧
    fixLapsI [some 90, some (-1), some 92] = [some 90, some 91, some 92] :=
  ⟨(C2_neighbor_average [some 90, some (-1), some 92] 1 (by norm_num)
      (by norm_num)).2.2.2.1,
   (C2_neighbor_average [some 90, some (-1), some 92] 1 (by norm_num)
      (by norm_num)).2.2.2.2⟩

/-- C2 counterexample: `functions.py`'s pass does not replace a missing
interior lap — on `[90, NaN, 92]` the value at index 1 stays missing
instead of becoming the neighbour average `91`. -/
theorem C2_counterexample :
    fixLapsF [some 90, none, some 92] = [some 90, none, some 92] ∧
    (fixLapsF [some 90, none, some 92]).getD 1 none ≠
      some ((90 + 92) / 2) := by
  have h : fixLapsF [some 90, none, some 92] = [some 90, none, some 92] := by
    norm_num [fixLapsF, fixPass, fixStep, invalidLap, nanAvg, List.range']
  refine ⟨h, ?_⟩
  rw [h]
  simp

/-- C10 (confirmed): the in-place pass proceeds in increasing index order,
so when two consecutive interior laps are both invalid the replacement of
the second uses the already-replaced value `(a + c)/2` of the first, not
its original value. -/
theorem C10_in_place_order (a b c d : ℚ) (hb : b ≤ 0) (hc : c ≤ 0) :
    fixLapsF [some a, some b, some c, some d] =
      [some a, some ((a + c) / 2), some (((a + c) / 2 + d) / 2), some d] := by
  unfold fixLapsF fixPass
  norm_num [List.range', fixStep, invalidLap, nanAvg, hb, hc]

/-- Witness for C10. -/
theorem C10_witness :
    fixLapsF [some 90, some (-1), some (-1), some 100] =
      [some 90, some ((90 + -1) / 2),
        some (((90 + -1) / 2 + 100) / 2), some 100] :=
  C10_in_place_order 90 (-1) (-1) 100 (by norm_num) (by norm_num)

/-! ### Claim theorems: per-driver error handling -/

theorem foldl_processStep_acc (f : String → Except String ℚ) :
    ∀ (ds : List String) (acc : List (String × ℚ)),
      ds.foldl (processStep f) acc = acc ++ ds.foldl (processStep f) [] := by
  intro ds
  induction ds with
  | nil => intro acc; simp
  | cons d rest ih =>
    intro acc
    rw [List.foldl_cons, List.foldl_cons, ih (processStep f acc d),
      ih (processStep f [] d)]
    unfold processStep
    cases f d <;> simp

/-- C7 (confirmed): a failure (`Except.error`, modelling a raised and
locally caught exception) while computing one driver's item never aborts
the chart loop — the failing driver is skipped and every driver before and
after it is still processed, producing exactly the concatenation of the
results of the two unaffected sublists. -/
theorem C7_error_isolated (f : String → Except String ℚ)
    (ds1 ds2 : List String) (d : String) (e : String)
    (hf : f d = .error e) :
    processDrivers f (ds1 ++ d :: ds2) =
      processDrivers f ds1 ++ processDrivers f ds2 := by
  unfold processDrivers
  rw [List.foldl_append, List.foldl_cons]
  have hstep : processStep f (ds1.foldl (processStep f) []) d =
      ds1.foldl (processStep f) [] := by
    unfold processStep
    rw [hf]
  rw [hstep]
  exact foldl_processStep_acc f ds2 _

/-- Witness for C7. -/
theorem C7_witness :
    processDrivers
        (fun s => if s = "BAD" then .error "boom" else .ok 1)
        ["VER", "BAD", "HAM"] =
      processDrivers
        (fun s => if s = "BAD" then .error "boom" else .ok 1) ["VER"] ++
      processDrivers
        (fun s => if s = "BAD" then .error "boom" else .ok 1) ["HAM"] :=
  C7_error_isolated _ ["VER"] ["HAM"] "BAD" "boom" (by simp)

/-! ### Claim theorems: degradation slope -/

/-- C8 (confirmed): with at least 3 points the degradation routine fits an
ordinary least squares line of lap time on tyre age and reports its slope,
which equals `cov(tyre_age, lap_time) / var(tyre_age)`; with fewer than 3
points no fit is produced. -/
theorem C8_ols_slope (x y : List ℚ) (hlen : x.length = y.length) :
    (3 ≤ y.length → degradation x y = some (covQ x y / varQ x)) ∧
    (y.length < 3 → degradation x y = none) := by
  constructor
  · intro h3
    unfold degradation
    rw [if_pos h3]
    congr 1
    have hx3 : 3 ≤ x.length := by omega
    have hn : (0 : ℚ) < (x.length : ℚ) := by
      have h : (3 : ℚ) ≤ (x.length : ℚ) := by exact_mod_cast hx3
      linarith
    have hne : ((x.length : ℚ)) ≠ 0 := ne_of_gt hn
    unfold olsSlope covQ varQ mean
    rw [show ((y.length : ℚ)) = ((x.length : ℚ)) by exact_mod_cast hlen.symm]
    set n : ℚ := (x.length : ℚ) with hndef
    set sxy := (List.zipWith (· * ·) x y).sum with hsxy
    set sx := x.sum with hsx
    set sy := y.sum with hsy
    set sxx := (x.map (fun t => t * t)).sum with hsxx
    have e1 : sxy / n - sx / n * (sy / n) = (n * sxy - sx * sy) / n ^ 2 := by
      field_simp
      ring
    have e2 : sxx / n - sx / n * (sx / n) = (n * sxx - sx * sx) / n ^ 2 := by
      field_simp
      ring
    rw [e1, e2]
    by_cases hB : n * sxx - sx * sx = 0
    · rw [hB]
      simp
    · have hn2 : n ^ 2 ≠ 0 := pow_ne_zero 2 hne
      rw [div_div_div_cancel_right₀]
      exact hn2
  · intro hlt
    unfold degradation
    rw [if_neg (by omega)]

/-- Witness for C8. -/
theorem C8_witness :
    degradation [1, 2, 3] [1, 2, 4] =
      some (covQ [1, 2, 3] [1, 2, 4] / varQ [1, 2, 3]) ∧
    degradation [1, 2] [1, 2] = none :=
  ⟨(C8_ols_slope [1, 2, 3] [1, 2, 4] rfl).1 (by decide),
   (C8_ols_slope [1, 2] [1, 2] rfl).2 (by decide)⟩

end F1Data
